import Mathlib

/-
Verification of the KZG polynomial-commitment core (package kzg, file kzg.go)
against its natural-language specification.

The embedding is shallow and generic over the scalar field F and the two
pairing groups G1Affine / G2Affine (the source instantiates these with the
BLS12-381 scalar field fr.Element and curve points; every claim checked here
is about the algebraic and control-flow structure of the core, which is
uniform in the concrete curve).  The external gnark-crypto "field/group
engine" operations that can fail (multi-scalar multiplication, pairing
check) are modelled as an explicit Engine record of fallible functions; the
infallible group operations (add, neg, sub, scalar multiplication,
Jacobian/affine conversions) are modelled directly by the AddCommGroup /
Module structure.  Conversion of a field element to a big integer followed
by scalar multiplication is modelled as scalar multiplication by the field
element itself (spec section 9: conversions preserve canonical reduced
form).  Go's error-value convention is modelled with Except; a Go runtime
panic (out-of-range slice index) is a dedicated GoOutcome.panic result.
-/

namespace kzg

/-- Error values of the kzg package: the four named errors declared in
kzg.go, the two ad-hoc errors created in DividePolyByXminusA, and a
constructor for errors propagated from the external field/group engine. -/
inductive KzgError : Type where
  | invalidNbDigests
  | invalidPolynomialSize
  | verifyOpeningProof
  | verifyBatchOpeningSinglePoint
  | polySizeMismatch
  | domainConflict
  | engine (msg : String)
deriving DecidableEq, Repr

/-- Result of running a Go function that can return a value, return an
error, or panic at runtime. -/
inductive GoOutcome (ε α : Type) : Type where
  | ok (a : α)
  | error (e : ε)
  | panic
deriving DecidableEq, Repr

/-- Inject an error-or-value result into a GoOutcome (no panic). -/
def liftE {ε α : Type} : Except ε α → GoOutcome ε α
  | .ok a => .ok a
  | .error e => .error e

/-- The fallible operations of the external gnark-crypto engine used by
kzg.go: multi-scalar multiplication (G1Affine.MultiExp) and the pairing
product check (curve.PairingCheck).  Engine errors are strings. -/
structure Engine (F G1Affine G2Affine : Type) : Type where
  multiExp : List G1Affine → List F → Except String G1Affine
  pairingCheck : List G1Affine → List G2Affine → Except String Bool

/-- OpeningProof from kzg.go: quotient commitment, evaluation point and
claimed value. -/
structure OpeningProof (F G1Affine : Type) : Type where
  QuotientComm : G1Affine
  InputPoint : F
  ClaimedValue : F
deriving DecidableEq, Repr

/-- Modelled from the spec: OpeningKey lives in a source file not included
here; spec section 3 gives it as the record of GenG1, GenG2 and AlphaG2 =
alpha-times-GenG2 from the SRS. -/
structure OpeningKey (G1Affine G2Affine : Type) : Type where
  GenG1 : G1Affine
  GenG2 : G2Affine
  AlphaG2 : G2Affine

/-- Modelled from the spec: CommitKey lives in a source file not included
here; spec section 3 gives it as an ordered sequence of G1 points. -/
structure CommitKey (G1Affine : Type) : Type where
  G1 : List G1Affine

/-- Modelled from the spec: Domain lives in a source file not included
here; spec section 3 gives it as a cardinality together with the ordered
roots of unity, with the invariant that the number of roots equals the
cardinality (carried here as a proof field). -/
structure Domain (F : Type) : Type where
  Cardinality : ℕ
  Roots : List F
  hlen : Roots.length = Cardinality

/-- Polynomial from kzg.go: a sequence of field elements (values on the
domain, Lagrange form). -/
abbrev Polynomial (F : Type) : Type := List F

variable {F : Type} [Field F] [DecidableEq F]
variable {G1Affine : Type} [AddCommGroup G1Affine] [Module F G1Affine]
variable {G2Affine : Type} [AddCommGroup G2Affine] [Module F G2Affine]

/-- Modelled from the spec: membership test of the Domain (domain.go is not
included in src/); spec section 4.1: true iff the point equals one of the
roots. -/
def Domain.isInDomain (d : Domain F) (x : F) : Bool :=
  decide (x ∈ d.Roots)

/-- The mathematical multi-scalar multiplication: the sum of each scalar
acting on the corresponding point.  This is the contract of the engine's
MultiExp (spec section 6). -/
def msm (points : List G1Affine) (scalars : List F) : G1Affine :=
  (List.zipWith (fun s p => s • p) scalars points).sum

/-- Verify from kzg.go (lines 40-87): the single-proof pairing check.
Computes [ClaimedValue]GenG1, the difference commitment - that, the negated
quotient commitment, and [alpha - InputPoint]GenG2 as
-(InputPoint • GenG2) + AlphaG2, then runs the engine's pairing check.
An engine error is returned as its own error; a false check returns
ErrVerifyOpeningProof; a true check returns success. -/
def Verify (eng : Engine F G1Affine G2Affine) (commitment : G1Affine)
    (proof : OpeningProof F G1Affine) (open_key : OpeningKey G1Affine G2Affine) :
    Except KzgError Unit :=
  let claimedValueG1Aff := proof.ClaimedValue • open_key.GenG1
  let fminusfaG1 := commitment - claimedValueG1Aff
  let negH := -proof.QuotientComm
  let alphaMinusaG2 := -(proof.InputPoint • open_key.GenG2) + open_key.AlphaG2
  match eng.pairingCheck [fminusfaG1, negH] [open_key.GenG2, alphaMinusaG2] with
  | .error e => .error (.engine e)
  | .ok true => .ok ()
  | .ok false => .error .verifyOpeningProof

/-- Forward pass of the engine's batch inversion (gnark-crypto
fr.BatchInvert, an external collaborator): walking left to right, each
nonzero entry is replaced by the running product of the previous nonzero
entries, zero entries are skipped; also returns the final accumulator. -/
def batchFwd (acc : F) : List F → List F × F
  | [] => ([], acc)
  | x :: xs =>
    if x = 0 then
      let r := batchFwd acc xs
      (0 :: r.1, r.2)
    else
      let r := batchFwd (acc * x) xs
      (acc :: r.1, r.2)

/-- Backward pass of the engine's batch inversion: walking right to left
(structural recursion returns the accumulator of the processed suffix),
each nonzero entry's stored prefix product is multiplied by the running
inverse, which is then multiplied by the entry itself. -/
def batchBwd (inv : F) : List (F × F) → List F × F
  | [] => ([], inv)
  | (x, r) :: rest =>
    let o := batchBwd inv rest
    if x = 0 then (0 :: o.1, o.2) else ((r * o.2) :: o.1, o.2 * x)

/-- The engine's amortized batch inversion (gnark-crypto fr.BatchInvert):
one forward product pass, one field inversion, one backward pass; zero
entries are left at zero.  Proved below to agree elementwise with the
per-element inverse. -/
def batchInvert (a : List F) : List F :=
  let fwd := batchFwd 1 a
  (batchBwd fwd.2⁻¹ (a.zip fwd.1)).1

/-- The product of the nonzero entries of a list (zero entries counted as
one): the quantity accumulated by the forward pass of batch inversion. -/
def nzProd (l : List F) : F :=
  (l.map (fun x => if x = 0 then 1 else x)).prod

/-- DividePolyByXminusA from kzg.go (lines 122-150): computes
(f - fa) / (x - a) on the domain.  Rejects a polynomial whose length
differs from the domain cardinality, then rejects a division point lying
in the domain; otherwise forms numer i = f i - fa and
denom i = Roots i - a, batch-inverts denom, and multiplies elementwise. -/
def DividePolyByXminusA (domain : Domain F) (f : Polynomial F) (fa a : F) :
    Except KzgError (List F) :=
  if domain.Cardinality ≠ f.length then .error .polySizeMismatch
  else if domain.isInDomain a then .error .domainConflict
  else
    let numer := (List.range f.length).map (fun i => f.getD i 0 - fa)
    let denom := (List.range f.length).map (fun i => domain.Roots.getD i 0 - a)
    let denomInv := batchInvert denom
    .ok ((List.range f.length).map (fun i => denomInv.getD i 0 * numer.getD i 0))

/-- Modelled from the spec: EvaluateLagrangePolynomial lives in a source
file not included here.  Spec sections 4.2 and 7: a polynomial whose
length does not match the domain cardinality is an invalid-size failure;
a point equal to a domain root is special-cased to return the stored value
at the matching index; otherwise the barycentric formula
(z^n - 1)/n * sum of p i * root i / (z - root i) is evaluated. -/
def EvaluateLagrangePolynomial (domain : Domain F) (p : Polynomial F)
    (point : F) : Except KzgError F :=
  if p.length ≠ domain.Cardinality then .error .polySizeMismatch
  else if point ∈ domain.Roots then
    .ok (p.getD (domain.Roots.indexOf point) 0)
  else
    .ok ((point ^ domain.Cardinality - 1) * (domain.Cardinality : F)⁻¹ *
      (List.zipWith (fun pi ri => pi * ri * (point - ri)⁻¹) p domain.Roots).sum)

/-- Modelled from the spec: Commit lives in a source file not included
here.  Spec section 4.3: fails with the invalid-size error if the
polynomial is empty or longer than the commit key, otherwise returns the
multi-scalar multiplication of the first length-many key points by the
polynomial values. -/
def Commit (p : Polynomial F) (ck : CommitKey G1Affine) :
    Except KzgError G1Affine :=
  if p.length = 0 ∨ p.length > ck.G1.length then .error .invalidPolynomialSize
  else .ok (msm (ck.G1.take p.length) p)

/-- Open from kzg.go (lines 90-118): checks the polynomial size against
the commit key, evaluates the polynomial at the point, divides by x - a,
commits to the quotient and assembles the proof.  Following Go's
two-value return convention, the result is a pair of the proof value and
an optional error: on any failure the zero-valued OpeningProof is
returned together with the error. -/
def Open (domain : Domain F) (p : Polynomial F) (point : F)
    (ck : CommitKey G1Affine) : OpeningProof F G1Affine × Option KzgError :=
  if p.length = 0 ∨ p.length > ck.G1.length then
    (⟨0, 0, 0⟩, some .invalidPolynomialSize)
  else
    match EvaluateLagrangePolynomial domain p point with
    | .error e => (⟨0, 0, 0⟩, some e)
    | .ok output_point =>
      match DividePolyByXminusA domain p output_point point with
      | .error e => (⟨0, 0, 0⟩, some e)
      | .ok quotient_poly =>
        match Commit quotient_poly ck with
        | .error e => (⟨0, 0, 0⟩, some e)
        | .ok quotientCommit =>
          ({ QuotientComm := quotientCommit, InputPoint := point,
             ClaimedValue := output_point }, none)

/-- Write a value at an index of a list, or fail when the index is out of
range: the semantics of a Go slice element assignment, whose out-of-range
case panics. -/
def setIdx {α : Type} : List α → ℕ → α → Option (List α)
  | [], _, _ => none
  | _ :: xs, 0, v => some (v :: xs)
  | x :: xs, i + 1, v => (setIdx xs i v).map (fun l => x :: l)

/-- The sampling loop of BatchVerifyMultiPoints (kzg.go lines 169-174):
overwrite each remaining slot, starting at index i, with a freshly drawn
scalar, stopping at the first sampling error. -/
def sampleFill (rand : ℕ → Except String F) : ℕ → List F → Except String (List F)
  | _, [] => .ok []
  | i, _ :: xs =>
    match rand i with
    | .error e => .error e
    | .ok v =>
      match sampleFill rand (i + 1) xs with
      | .error e => .error e
      | .ok rest => .ok (v :: rest)

/-- The random-coefficient setup of BatchVerifyMultiPoints (kzg.go lines
167-174): allocate n zeroed scalars, set slot 0 to one (a Go slice write
that panics when n = 0), and fill slots 1 onward from the randomness
source. -/
def sampleRandoms (rand : ℕ → Except String F) (n : ℕ) :
    GoOutcome String (List F) :=
  match setIdx (List.replicate n (0 : F)) 0 1 with
  | none => .panic
  | some l =>
    match sampleFill rand 1 (l.drop 1) with
    | .error e => .error e
    | .ok tail => .ok (l.take 1 ++ tail)

/-- fold from kzg.go (lines 240-262): the weighted combination of a list
of commitments and a parallel list of claimed values by a common list of
factors; the scalar part is an ordinary sum of products, the group part is
one engine multi-scalar multiplication whose error is propagated. -/
def fold (eng : Engine F G1Affine G2Affine) (digests : List G1Affine)
    (evaluations factors : List F) : Except String (G1Affine × F) :=
  let foldedEvaluations :=
    (List.zipWith (fun ev r => ev * r) evaluations factors).sum
  match eng.multiExp digests factors with
  | .error e => .error e
  | .ok foldedDigests => .ok (foldedDigests, foldedEvaluations)

/-- BatchVerifyMultiPoints from kzg.go (lines 154-236).  Checks the two
list lengths; delegates to Verify for a single pair; otherwise samples the
random coefficients (index 0 fixed to one), folds the quotient
commitments (note: an engine error from this first multi-scalar
multiplication is swallowed, returning success — the faithfully modelled
line 185 of the source), folds commitments and claimed values, forms
F = foldedDigests - foldedEvals • GenG1 + foldedPointsQuotients with the
point-reweighted coefficients, and runs the pairing check against GenG2
and AlphaG2. -/
def BatchVerifyMultiPoints (eng : Engine F G1Affine G2Affine)
    (rand : ℕ → Except String F) (commitments : List G1Affine)
    (proofs : List (OpeningProof F G1Affine))
    (open_key : OpeningKey G1Affine G2Affine) : GoOutcome KzgError Unit :=
  if commitments.length ≠ proofs.length then .error .invalidNbDigests
  else if commitments.length = 1 then
    liftE (Verify eng (commitments.getD 0 0) (proofs.getD 0 ⟨0, 0, 0⟩) open_key)
  else
    match sampleRandoms rand commitments.length with
    | .panic => .panic
    | .error e => .error (.engine e)
    | .ok randomNumbers =>
      let quotients := proofs.map (fun pf => pf.QuotientComm)
      match eng.multiExp quotients randomNumbers with
      | .error _ => .ok ()
      | .ok foldedQuotients =>
        let evals := proofs.map (fun pf => pf.ClaimedValue)
        match fold eng commitments evals randomNumbers with
        | .error e => .error (.engine e)
        | .ok folded =>
          let foldedEvalsCommit := folded.2 • open_key.GenG1
          let foldedDigests := folded.1 - foldedEvalsCommit
          let randomPoints :=
            List.zipWith (fun r pf => r * pf.InputPoint) randomNumbers proofs
          match eng.multiExp quotients randomPoints with
          | .error e => .error (.engine e)
          | .ok foldedPointsQuotients =>
            let lhsG1 := foldedDigests + foldedPointsQuotients
            let negFoldedQuotients := -foldedQuotients
            match eng.pairingCheck [lhsG1, negFoldedQuotients]
                [open_key.GenG2, open_key.AlphaG2] with
            | .error e => .error (.engine e)
            | .ok true => .ok ()
            | .ok false => .error .verifyOpeningProof

/-- The list of batching coefficients drawn by BatchVerifyMultiPoints when
the randomness source yields the values rv: one, followed by the samples
at indices 1 through n-1. -/
def rlist (rv : ℕ → F) (n : ℕ) : List F :=
  1 :: (List.range (n - 1)).map (fun j => rv (1 + j))

/-- The four slices live during DividePolyByXminusA: the input polynomial
f, the domain's Roots, and the two freshly allocated working buffers numer
and denom.  Used by the memory-explicit rendering of the function, which
records which buffer each Go statement writes. -/
structure DivideMem (F : Type) : Type where
  f : List F
  roots : List F
  numer : List F
  denom : List F

/-- First loop of DividePolyByXminusA (kzg.go lines 133-136): for each
index below the length of f, write f i - fa into the numer buffer. -/
def divideLoop1 (fa : F) (st : DivideMem F) : DivideMem F :=
  (List.range st.f.length).foldl
    (fun s i => { s with numer := s.numer.set i (s.f.getD i 0 - fa) }) st

/-- Second loop of DividePolyByXminusA (kzg.go lines 139-142): for each
index below the length of f, write Roots i - a into the denom buffer. -/
def divideLoop2 (a : F) (st : DivideMem F) : DivideMem F :=
  (List.range st.f.length).foldl
    (fun s i => { s with denom := s.denom.set i (s.roots.getD i 0 - a) }) st

/-- Final loop of DividePolyByXminusA (kzg.go lines 145-147): for each
index below the length of f, multiply the denom entry in place by the
numer entry. -/
def divideLoop3 (st : DivideMem F) : DivideMem F :=
  (List.range st.f.length).foldl
    (fun s i =>
      { s with denom := s.denom.set i (s.denom.getD i 0 * s.numer.getD i 0) }) st

/-- Memory-explicit rendering of DividePolyByXminusA: every slice write of
the source is an update of the corresponding DivideMem buffer, and the
final state's f and roots buffers are returned next to the result so that
their preservation is a provable statement rather than an artifact of a
pure translation.  The batch inversion allocates a fresh slice which is
reassigned to the denom variable, as in the source. -/
def DividePolyByXminusAMem (domain : Domain F) (f : Polynomial F) (fa a : F) :
    Except KzgError (List F) × List F × List F :=
  if domain.Cardinality ≠ f.length then (.error .polySizeMismatch, f, domain.Roots)
  else if domain.isInDomain a then (.error .domainConflict, f, domain.Roots)
  else
    let st0 : DivideMem F :=
      ⟨f, domain.Roots, List.replicate f.length 0, List.replicate f.length 0⟩
    let st1 := divideLoop1 fa st0
    let st2 := divideLoop2 a st1
    let st3 := { st2 with denom := batchInvert st2.denom }
    let st4 := divideLoop3 st3
    (.ok st4.denom, st4.f, st4.roots)

end kzg

/-- A two-element field used as a concrete instantiation of the scalar
field and of both groups in the closed test instances below: every
operation reduces definitionally, so concrete runs of the embedded
functions can be checked by the kernel. -/
inductive F2 : Type where
  | O
  | I
deriving DecidableEq, Fintype

namespace F2

instance : Zero F2 := ⟨O⟩

instance : One F2 := ⟨I⟩

instance : Add F2 where
  add
    | O, y => y
    | I, O => I
    | I, I => O

instance : Mul F2 where
  mul
    | O, _ => O
    | I, y => y

instance : Neg F2 := ⟨fun x => x⟩

instance : Inv F2 := ⟨fun x => x⟩

instance : Field F2 :=
  Field.ofMinimalAxioms F2 (by decide) (by decide) (by decide) (by decide)
    (by decide) (by decide) (by decide) (by decide) (by decide) (by decide)

end F2

namespace kzg

/-- Concrete domain over F2: cardinality one, single root 1. -/
def dF2 : Domain F2 := ⟨1, [1], rfl⟩

/-- Concrete one-value polynomial over F2. -/
def pF2 : Polynomial F2 := [1]

/-- Concrete commit key over F2. -/
def ckF2 : CommitKey F2 := ⟨[1]⟩

/-- Concrete opening key over F2. -/
def okF2 : OpeningKey F2 F2 := ⟨1, 1, 1⟩

/-- Concrete opening proof value over F2. -/
def prfF2 : OpeningProof F2 F2 := ⟨1, 0, 1⟩

/-- A sound engine over F2: multi-scalar multiplication follows its
mathematical contract (failing only on a length mismatch) and the pairing
check always accepts. -/
def engSound : Engine F2 F2 F2 where
  multiExp := fun ps ss =>
    if ps.length = ss.length then .ok (msm ps ss)
    else .error "multi-exp length mismatch"
  pairingCheck := fun _ _ => .ok true

/-- An engine over F2 whose pairing check always rejects. -/
def engPairFalse : Engine F2 F2 F2 where
  multiExp := fun ps ss =>
    if ps.length = ss.length then .ok (msm ps ss)
    else .error "multi-exp length mismatch"
  pairingCheck := fun _ _ => .ok false

/-- An engine over F2 whose pairing check fails with an engine error. -/
def engPairErr : Engine F2 F2 F2 where
  multiExp := fun ps ss =>
    if ps.length = ss.length then .ok (msm ps ss)
    else .error "multi-exp length mismatch"
  pairingCheck := fun _ _ => .error "pairing failure"

/-- An engine over F2 whose multi-scalar multiplication always fails:
used to exercise the engine-error paths of the batched verifier. -/
def engMsmFail : Engine F2 F2 F2 where
  multiExp := fun _ _ => .error "multi-exp failure"
  pairingCheck := fun _ _ => .ok true

/-- A randomness source over F2 that always yields one. -/
def randF2 : ℕ → Except String F2 := fun _ => .ok 1

variable {F : Type} [Field F] [DecidableEq F]
variable {G1Affine : Type} [AddCommGroup G1Affine] [Module F G1Affine]
variable {G2Affine : Type} [AddCommGroup G2Affine] [Module F G2Affine]

lemma nzProd_nil : nzProd ([] : List F) = 1 := rfl

lemma nzProd_cons (x : F) (l : List F) :
    nzProd (x :: l) = (if x = 0 then 1 else x) * nzProd l := by
  simp [nzProd]

lemma nzProd_ne_zero (l : List F) : nzProd l ≠ 0 := by
  induction l with
  | nil => simp [nzProd_nil]
  | cons x xs ih =>
    rw [nzProd_cons]
    refine mul_ne_zero ?_ ih
    by_cases hx : x = 0 <;> simp [hx]

lemma batchFwd_snd (xs : List F) : ∀ acc : F, (batchFwd acc xs).2 = acc * nzProd xs := by
  induction xs with
  | nil => intro acc; simp [batchFwd, nzProd_nil]
  | cons x xs ih =>
    intro acc
    by_cases hx : x = 0
    · simp [batchFwd, hx, ih, nzProd_cons]
    · simp [batchFwd, hx, ih, nzProd_cons, mul_assoc]

lemma batchBwd_spec (xs : List F) :
    ∀ acc : F, acc ≠ 0 →
      batchBwd (acc * nzProd xs)⁻¹ (xs.zip (batchFwd acc xs).1) =
        (xs.map (fun x => x⁻¹), acc⁻¹) := by
  induction xs with
  | nil => intro acc hacc; simp [batchBwd, batchFwd, nzProd_nil]
  | cons x xs ih =>
    intro acc hacc
    by_cases hx : x = 0
    · have : nzProd (x :: xs) = nzProd xs := by simp [nzProd_cons, hx]
      rw [this]
      simp only [batchFwd, hx, if_true, List.zip_cons_cons, batchBwd,
        ih acc hacc]
      simp [hx]
    · have hax : acc * x ≠ 0 := mul_ne_zero hacc hx
      have harg : acc * nzProd (x :: xs) = acc * x * nzProd xs := by
        rw [nzProd_cons, if_neg hx, mul_assoc]
      rw [harg]
      simp only [batchFwd, hx, if_false, List.zip_cons_cons, batchBwd,
        ih (acc * x) hax]
      rw [List.map_cons, Prod.mk.injEq]
      refine ⟨?_, ?_⟩
      · congr 1
        rw [mul_inv_rev]
        field_simp
        exact mul_comm acc x
      · rw [mul_inv_rev]
        field_simp

/-- The engine's amortized batch inversion agrees elementwise with the
per-element inverse (zeros map to zero): the algebraic-equivalence claim
of spec sections 4.2 and 9. -/
lemma batchInvert_eq_map (l : List F) : batchInvert l = l.map (fun x => x⁻¹) := by
  have h1 := batchFwd_snd l 1
  have h2 := batchBwd_spec l 1 one_ne_zero
  rw [one_mul] at h1 h2
  rw [batchInvert, h1, h2]

lemma batchInvert_length (l : List F) : (batchInvert l).length = l.length := by
  rw [batchInvert_eq_map, List.length_map]

lemma sampleFill_replicate (rand : ℕ → Except String F) (rv : ℕ → F)
    (hrand : ∀ i, rand i = .ok (rv i)) :
    ∀ (m i : ℕ), sampleFill rand i (List.replicate m (0 : F)) =
      .ok ((List.range m).map (fun j => rv (i + j))) := by
  intro m
  induction m with
  | zero => intro i; simp [sampleFill]
  | succ m ih =>
    intro i
    rw [List.replicate_succ]
    simp only [sampleFill, hrand i, ih (i + 1)]
    have hfun : (fun j => rv (i + 1 + j)) = ((fun j => rv (i + j)) ∘ Nat.succ) := by
      funext j
      show rv (i + 1 + j) = rv (i + (j + 1))
      congr 1
      omega
    rw [List.range_succ_eq_map, List.map_cons, List.map_map, ← hfun]
    simp

lemma sampleRandoms_ok (rand : ℕ → Except String F) (rv : ℕ → F)
    (hrand : ∀ i, rand i = .ok (rv i)) (n : ℕ) (hn : 1 ≤ n) :
    sampleRandoms rand n = .ok (rlist rv n) := by
  obtain ⟨m, rfl⟩ : ∃ m, n = m + 1 := ⟨n - 1, by omega⟩
  rw [sampleRandoms, List.replicate_succ]
  simp only [setIdx, List.drop_succ_cons, List.drop_zero, List.take_succ_cons,
    List.take_zero]
  rw [sampleFill_replicate rand rv hrand m 1]
  simp [rlist]

lemma rlist_length (rv : ℕ → F) (n : ℕ) (hn : 1 ≤ n) :
    (rlist rv n).length = n := by
  simp [rlist]
  omega

/-- C3: Verify succeeds iff the pairing product
e(commitment - ClaimedValue * GenG1, GenG2) * e(-QuotientComm,
AlphaG2 - InputPoint * GenG2) equals the identity (as decided by the
engine's pairing check, whose second G2 argument the code assembles as
-(InputPoint * GenG2) + AlphaG2); a non-identity product fails with the
proof-verification error, and an engine error from the pairing check is
returned as its own error. -/
theorem Verify_pairing_characterization
    (eng : Engine F G1Affine G2Affine) (commitment : G1Affine)
    (proof : OpeningProof F G1Affine)
    (open_key : OpeningKey G1Affine G2Affine) :
    (∀ e, eng.pairingCheck
        [commitment - proof.ClaimedValue • open_key.GenG1, -proof.QuotientComm]
        [open_key.GenG2, open_key.AlphaG2 - proof.InputPoint • open_key.GenG2]
        = .error e →
      Verify eng commitment proof open_key = .error (.engine e)) ∧
    (Verify eng commitment proof open_key = .ok () ↔
      eng.pairingCheck
        [commitment - proof.ClaimedValue • open_key.GenG1, -proof.QuotientComm]
        [open_key.GenG2, open_key.AlphaG2 - proof.InputPoint • open_key.GenG2]
        = .ok true) ∧
    (eng.pairingCheck
        [commitment - proof.ClaimedValue • open_key.GenG1, -proof.QuotientComm]
        [open_key.GenG2, open_key.AlphaG2 - proof.InputPoint • open_key.GenG2]
        = .ok false →
      Verify eng commitment proof open_key = .error .verifyOpeningProof) := by
  have harg : open_key.AlphaG2 - proof.InputPoint • open_key.GenG2
      = -(proof.InputPoint • open_key.GenG2) + open_key.AlphaG2 := by
    rw [neg_add_eq_sub]
  rw [harg]
  simp only [Verify]
  cases hpc : eng.pairingCheck
      [commitment - proof.ClaimedValue • open_key.GenG1, -proof.QuotientComm]
      [open_key.GenG2, -(proof.InputPoint • open_key.GenG2) + open_key.AlphaG2] with
  | error e => simp [hpc]
  | ok b => cases b <;> simp [hpc]

/-- Witness for C3: at a concrete engine whose pairing check rejects,
Verify fails with the proof-verification error. -/
theorem Verify_pairing_characterization_witness :
    Verify engPairFalse (1 : F2) prfF2 okF2 = .error .verifyOpeningProof :=
  (Verify_pairing_characterization engPairFalse 1 prfF2 okF2).2.2 rfl

/-- C4: BatchVerifyMultiPoints on exactly one commitment/proof pair
delegates to the single-proof Verify and returns its exact outcome. -/
theorem BatchVerifyMultiPoints_single (eng : Engine F G1Affine G2Affine)
    (rand : ℕ → Except String F) (c : G1Affine) (pf : OpeningProof F G1Affine)
    (k : OpeningKey G1Affine G2Affine) :
    BatchVerifyMultiPoints eng rand [c] [pf] k = liftE (Verify eng c pf k) := rfl

/-- C8: a commitment list and proof list of different lengths always fail
with the count-mismatch error, for every engine, randomness source, list
contents and opening key: the check precedes all other processing. -/
theorem BatchVerifyMultiPoints_count_mismatch
    (eng : Engine F G1Affine G2Affine) (rand : ℕ → Except String F)
    (commitments : List G1Affine) (proofs : List (OpeningProof F G1Affine))
    (open_key : OpeningKey G1Affine G2Affine)
    (h : commitments.length ≠ proofs.length) :
    BatchVerifyMultiPoints eng rand commitments proofs open_key
      = .error .invalidNbDigests := by
  unfold BatchVerifyMultiPoints
  rw [if_pos h]

/-- Witness for C8 at empty commitments versus one proof. -/
theorem BatchVerifyMultiPoints_count_mismatch_witness :
    BatchVerifyMultiPoints engSound randF2 ([] : List F2) [prfF2] okF2
      = .error .invalidNbDigests :=
  BatchVerifyMultiPoints_count_mismatch engSound randF2 [] [prfF2] okF2
    (by decide)

/-- C9: on two empty lists the batched verifier reaches the out-of-range
write randomNumbers[0].SetOne() on a zero-length slice and panics, for
every engine, randomness source and opening key. -/
theorem BatchVerifyMultiPoints_empty_panics (eng : Engine F G1Affine G2Affine)
    (rand : ℕ → Except String F) (k : OpeningKey G1Affine G2Affine) :
    BatchVerifyMultiPoints eng rand ([] : List G1Affine)
      ([] : List (OpeningProof F G1Affine)) k = .panic := rfl

/-- C2: for two or more commitment/proof pairs, the batching coefficients
are r 0 = 1 followed by the freshly sampled scalars, and — when the
engine's multi-scalar multiplication meets its sum contract and the
randomness source succeeds — the call succeeds exactly when the pairing
check accepts the pair (F, -foldedQuotient) against (GenG2, AlphaG2),
where foldedQuotient is the r-weighted sum of the quotient commitments and
F = (sum of r i • commitment i) - (sum of r i * ClaimedValue i) • GenG1
+ (sum of (r i * InputPoint i) • QuotientComm i); a rejecting pairing
check fails with the proof-verification error. -/
theorem BatchVerifyMultiPoints_pairing_characterization
    (eng : Engine F G1Affine G2Affine) (rand : ℕ → Except String F)
    (rv : ℕ → F) (commitments : List G1Affine)
    (proofs : List (OpeningProof F G1Affine))
    (open_key : OpeningKey G1Affine G2Affine) (b : Bool)
    (hlen : commitments.length = proofs.length)
    (h2 : 2 ≤ commitments.length)
    (hrand : ∀ i, rand i = .ok (rv i))
    (hmsm : ∀ ps ss, ps.length = ss.length →
      eng.multiExp ps ss = .ok (msm ps ss))
    (hpair : eng.pairingCheck
        [msm commitments (rlist rv commitments.length)
            - (List.zipWith (fun ev r => ev * r)
                (proofs.map (fun pf => pf.ClaimedValue))
                (rlist rv commitments.length)).sum • open_key.GenG1
            + msm (proofs.map (fun pf => pf.QuotientComm))
                (List.zipWith (fun r pf => r * pf.InputPoint)
                  (rlist rv commitments.length) proofs),
          -(msm (proofs.map (fun pf => pf.QuotientComm))
              (rlist rv commitments.length))]
        [open_key.GenG2, open_key.AlphaG2] = .ok b) :
    BatchVerifyMultiPoints eng rand commitments proofs open_key
      = if b then .ok () else .error .verifyOpeningProof := by
  have h1 : 1 ≤ commitments.length := by omega
  have hrl : (rlist rv commitments.length).length = commitments.length :=
    rlist_length rv _ h1
  simp only [BatchVerifyMultiPoints]
  rw [if_neg (by omega), if_neg (by omega)]
  rw [sampleRandoms_ok rand rv hrand _ h1]
  have hq : (List.map (fun pf => pf.QuotientComm) proofs).length
      = (rlist rv commitments.length).length := by
    rw [List.length_map, hrl]
    omega
  have hc : commitments.length = (rlist rv commitments.length).length := hrl.symm
  have hz : (List.map (fun pf => pf.QuotientComm) proofs).length
      = (List.zipWith (fun r pf => r * pf.InputPoint)
          (rlist rv commitments.length) proofs).length := by
    rw [List.length_map, List.length_zipWith, hrl]
    omega
  simp only [hmsm _ _ hq, hmsm _ _ hz, fold, hmsm _ _ hc, hpair]
  cases b <;> simp

/-- Witness for C2 at a sound engine over F2 with two pairs: the pairing
check accepts, so batched verification succeeds. -/
theorem BatchVerifyMultiPoints_pairing_characterization_witness :
    BatchVerifyMultiPoints engSound randF2 [(1 : F2), 1] [prfF2, prfF2] okF2
      = .ok () := by
  have h := BatchVerifyMultiPoints_pairing_characterization engSound randF2
    (fun _ => 1) [(1 : F2), 1] [prfF2, prfF2] okF2 true rfl (by decide)
    (fun _ => rfl) (fun ps ss hps => by simp [engSound, hps]) rfl
  simpa using h

/-- C5: on a polynomial matching the domain cardinality and a division
point outside the domain, DividePolyByXminusA succeeds with the
polynomial whose i-th value is (f i - fa) * (Roots i - a)⁻¹ — the
batch-inverted denominators multiplied elementwise into the shifted
numerators, batch inversion agreeing with per-element inversion. -/
theorem DividePolyByXminusA_values (d : Domain F) (f : Polynomial F)
    (fa a : F) (hlen : f.length = d.Cardinality) (ha : a ∉ d.Roots) :
    ∃ q, DividePolyByXminusA d f fa a = .ok q ∧ q.length = f.length ∧
      ∀ i, i < f.length →
        q.getD i 0 = (f.getD i 0 - fa) * (d.Roots.getD i 0 - a)⁻¹ := by
  have hstep : DividePolyByXminusA d f fa a = .ok
      ((List.range f.length).map (fun i =>
        (batchInvert ((List.range f.length).map
          (fun j => d.Roots.getD j 0 - a))).getD i 0 *
        ((List.range f.length).map (fun j => f.getD j 0 - fa)).getD i 0)) := by
    simp only [DividePolyByXminusA]
    rw [if_neg (by omega), if_neg (by simp [Domain.isInDomain, ha])]
  refine ⟨_, hstep, by simp, ?_⟩
  intro i hi
  simp [batchInvert_eq_map, List.getD_eq_getElem?_getD, List.getElem?_map,
    List.getElem?_range, hi, mul_comm]

/-- Witness for C5 at the concrete F2 domain, dividing the constant-one
polynomial at the point zero. -/
theorem DividePolyByXminusA_values_witness :
    ∃ q, DividePolyByXminusA dF2 pF2 1 0 = .ok q ∧ q.length = pF2.length ∧
      ∀ i, i < pF2.length →
        q.getD i 0 = (pF2.getD i 0 - 1) * (dF2.Roots.getD i 0 - 0)⁻¹ :=
  DividePolyByXminusA_values dF2 pF2 1 0 rfl (by decide)

/-- C6: DividePolyByXminusA fails with the size-mismatch error whenever
the polynomial length differs from the domain cardinality, and — the size
check passing first — fails with the domain-conflict error whenever the
division point is one of the domain roots; no polynomial accompanies
either error. -/
theorem DividePolyByXminusA_rejects (d : Domain F) (f : Polynomial F)
    (fa a : F) :
    (f.length ≠ d.Cardinality →
      DividePolyByXminusA d f fa a = .error .polySizeMismatch) ∧
    (f.length = d.Cardinality → a ∈ d.Roots →
      DividePolyByXminusA d f fa a = .error .domainConflict) := by
  constructor
  · intro h
    simp only [DividePolyByXminusA]
    rw [if_pos (by omega)]
  · intro hl hmem
    simp only [DividePolyByXminusA]
    rw [if_neg (by omega), if_pos (by simp [Domain.isInDomain, hmem])]

/-- Witness for C6: a two-value polynomial against the cardinality-one F2
domain hits the size error; dividing at the root 1 hits the
domain-conflict error. -/
theorem DividePolyByXminusA_rejects_witness :
    DividePolyByXminusA dF2 [(1 : F2), 1] 1 0 = .error .polySizeMismatch ∧
    DividePolyByXminusA dF2 pF2 1 1 = .error .domainConflict :=
  ⟨(DividePolyByXminusA_rejects dF2 [(1 : F2), 1] 1 0).1 (by decide),
   (DividePolyByXminusA_rejects dF2 pF2 1 1).2 rfl (by decide)⟩

/-- C7: Open fails with the invalid-polynomial-size error exactly when
the polynomial is empty or longer than the commit key; otherwise a
failure of evaluation, division or commitment is propagated with the
zero-valued (empty) OpeningProof, and on success the returned proof is
exactly the commitment to the quotient of the division at the claimed
value produced by Lagrange evaluation, together with the input point and
that claimed value. -/
theorem Open_characterization (d : Domain F) (p : Polynomial F) (point : F)
    (ck : CommitKey G1Affine) :
    (p.length = 0 ∨ p.length > ck.G1.length →
      Open d p point ck = (⟨0, 0, 0⟩, some .invalidPolynomialSize)) ∧
    (¬(p.length = 0 ∨ p.length > ck.G1.length) →
      (∀ e, EvaluateLagrangePolynomial d p point = .error e →
        Open d p point ck = (⟨0, 0, 0⟩, some e)) ∧
      (∀ claimed, EvaluateLagrangePolynomial d p point = .ok claimed →
        (∀ e, DividePolyByXminusA d p claimed point = .error e →
          Open d p point ck = (⟨0, 0, 0⟩, some e)) ∧
        (∀ q, DividePolyByXminusA d p claimed point = .ok q →
          (∀ e, Commit q ck = .error e →
            Open d p point ck = (⟨0, 0, 0⟩, some e)) ∧
          (∀ qc, Commit q ck = .ok qc →
            Open d p point ck =
              ({ QuotientComm := qc, InputPoint := point,
                 ClaimedValue := claimed }, none))))) := by
  constructor
  · intro h
    simp only [Open]
    rw [if_pos h]
  · intro h
    refine ⟨?_, ?_⟩
    · intro e he
      simp only [Open]
      rw [if_neg h]
      simp only [he]
    · intro claimed hcl
      refine ⟨?_, ?_⟩
      · intro e he
        simp only [Open]
        rw [if_neg h]
        simp only [hcl, he]
      · intro q hq
        refine ⟨?_, ?_⟩
        · intro e he
          simp only [Open]
          rw [if_neg h]
          simp only [hcl, hq, he]
        · intro qc hqc
          simp only [Open]
          rw [if_neg h]
          simp only [hcl, hq, hqc]

/-- Witness for C7: the full success path at the concrete F2 instance —
evaluation yields 1, division yields the zero polynomial, commitment
yields the zero point, and Open returns exactly that proof with no
error. -/
theorem Open_characterization_witness :
    Open dF2 pF2 0 ckF2
      = ({ QuotientComm := (0 : F2), InputPoint := 0, ClaimedValue := 1 },
         none) :=
  ((((Open_characterization dF2 pF2 0 ckF2).2 (by decide)).2 1 rfl).2
    [0] rfl).2 0 rfl

/-- C1: at a concrete engine whose multi-scalar multiplication fails, the
batched verifier of the source returns success (nil) instead of
propagating the engine error from the quotient-commitment fold: the
swallowed error path of kzg.go line 185. -/
theorem BatchVerifyMultiPoints_swallows_fold_error :
    BatchVerifyMultiPoints engMsmFail randF2 [(1 : F2), 1] [prfF2, prfF2] okF2
      = .ok () := rfl

lemma foldl_numer_preserve (g : DivideMem F → ℕ → List F) (l : List ℕ) :
    ∀ st : DivideMem F,
      (l.foldl (fun s i => { s with numer := g s i }) st).f = st.f ∧
      (l.foldl (fun s i => { s with numer := g s i }) st).roots = st.roots ∧
      (l.foldl (fun s i => { s with numer := g s i }) st).denom = st.denom := by
  induction l with
  | nil => intro st; exact ⟨rfl, rfl, rfl⟩
  | cons i is ih => intro st; exact ih _

lemma foldl_denom_preserve (g : DivideMem F → ℕ → List F) (l : List ℕ) :
    ∀ st : DivideMem F,
      (l.foldl (fun s i => { s with denom := g s i }) st).f = st.f ∧
      (l.foldl (fun s i => { s with denom := g s i }) st).roots = st.roots ∧
      (l.foldl (fun s i => { s with denom := g s i }) st).numer = st.numer := by
  induction l with
  | nil => intro st; exact ⟨rfl, rfl, rfl⟩
  | cons i is ih => intro st; exact ih _

lemma divideLoop1_numer_fold (fa : F) (l : List ℕ) :
    ∀ st : DivideMem F,
      (l.foldl (fun s i =>
        { s with numer := s.numer.set i (s.f.getD i 0 - fa) }) st).numer
        = l.foldl (fun nl i => nl.set i (st.f.getD i 0 - fa)) st.numer := by
  induction l with
  | nil => intro st; rfl
  | cons i is ih => intro st; exact ih _

lemma divideLoop2_denom_fold (a : F) (l : List ℕ) :
    ∀ st : DivideMem F,
      (l.foldl (fun s i =>
        { s with denom := s.denom.set i (s.roots.getD i 0 - a) }) st).denom
        = l.foldl (fun dl i => dl.set i (st.roots.getD i 0 - a)) st.denom := by
  induction l with
  | nil => intro st; rfl
  | cons i is ih => intro st; exact ih _

lemma divideLoop3_denom_fold (l : List ℕ) :
    ∀ st : DivideMem F,
      (l.foldl (fun s i =>
        { s with denom := s.denom.set i (s.denom.getD i 0 * s.numer.getD i 0) }) st).denom
        = l.foldl (fun dl i => dl.set i (dl.getD i 0 * st.numer.getD i 0)) st.denom := by
  induction l with
  | nil => intro st; rfl
  | cons i is ih => intro st; exact ih _

lemma foldl_set_range_const {α : Type} (g : ℕ → α) :
    ∀ (n : ℕ) (init : List α), n ≤ init.length →
      (List.range n).foldl (fun l i => l.set i (g i)) init
        = (List.range n).map g ++ init.drop n := by
  intro n
  induction n with
  | zero => intro init h; simp
  | succ n ih =>
    intro init h
    rw [List.range_succ, List.foldl_append, List.map_append, ih init (by omega)]
    simp only [List.foldl_cons, List.foldl_nil, List.map_cons, List.map_nil]
    rw [List.set_append]
    have hlen : ((List.range n).map g).length = n := by simp
    rw [hlen, if_neg (by omega), Nat.sub_self,
      List.drop_eq_getElem_cons (show n < init.length by omega)]
    simp [List.set]

lemma foldl_set_range_self {α : Type} (g : ℕ → α → α) (dflt : α) :
    ∀ (n : ℕ) (init : List α), n ≤ init.length →
      (List.range n).foldl (fun l i => l.set i (g i (l.getD i dflt))) init
        = (List.range n).map (fun i => g i (init.getD i dflt)) ++ init.drop n := by
  intro n
  induction n with
  | zero => intro init h; simp
  | succ n ih =>
    intro init h
    rw [List.range_succ, List.foldl_append, List.map_append, ih init (by omega)]
    simp only [List.foldl_cons, List.foldl_nil, List.map_cons, List.map_nil]
    have hlen : ((List.range n).map (fun i => g i (init.getD i dflt))).length = n := by
      simp
    have hget : (((List.range n).map (fun i => g i (init.getD i dflt)))
        ++ init.drop n).getD n dflt = init.getD n dflt := by
      rw [List.getD_eq_getElem?_getD, List.getElem?_append_right (by omega),
        hlen, Nat.sub_self, List.getElem?_drop, Nat.add_zero,
        List.getD_eq_getElem?_getD]
    rw [hget, List.set_append, hlen, if_neg (by omega), Nat.sub_self,
      List.drop_eq_getElem_cons (show n < init.length by omega)]
    simp [List.set]

lemma divideLoop1_spec (fa : F) (st : DivideMem F)
    (h : st.f.length ≤ st.numer.length) :
    divideLoop1 fa st = ⟨st.f, st.roots,
      (List.range st.f.length).map (fun i => st.f.getD i 0 - fa)
        ++ st.numer.drop st.f.length, st.denom⟩ := by
  have hf : (divideLoop1 fa st).f = st.f :=
    (foldl_numer_preserve _ _ st).1
  have hr : (divideLoop1 fa st).roots = st.roots :=
    (foldl_numer_preserve _ _ st).2.1
  have hd : (divideLoop1 fa st).denom = st.denom :=
    (foldl_numer_preserve _ _ st).2.2
  have hn : (divideLoop1 fa st).numer
      = (List.range st.f.length).map (fun i => st.f.getD i 0 - fa)
        ++ st.numer.drop st.f.length := by
    have h1 : (divideLoop1 fa st).numer
        = (List.range st.f.length).foldl
            (fun nl i => nl.set i (st.f.getD i 0 - fa)) st.numer :=
      divideLoop1_numer_fold fa _ st
    rw [h1, foldl_set_range_const (fun i => st.f.getD i 0 - fa) _ _ h]
  calc divideLoop1 fa st
      = ⟨(divideLoop1 fa st).f, (divideLoop1 fa st).roots,
          (divideLoop1 fa st).numer, (divideLoop1 fa st).denom⟩ := rfl
    _ = _ := by rw [hf, hr, hd, hn]

lemma divideLoop2_spec (a : F) (st : DivideMem F)
    (h : st.f.length ≤ st.denom.length) :
    divideLoop2 a st = ⟨st.f, st.roots, st.numer,
      (List.range st.f.length).map (fun i => st.roots.getD i 0 - a)
        ++ st.denom.drop st.f.length⟩ := by
  have hf : (divideLoop2 a st).f = st.f :=
    (foldl_denom_preserve _ _ st).1
  have hr : (divideLoop2 a st).roots = st.roots :=
    (foldl_denom_preserve _ _ st).2.1
  have hn : (divideLoop2 a st).numer = st.numer :=
    (foldl_denom_preserve _ _ st).2.2
  have hd : (divideLoop2 a st).denom
      = (List.range st.f.length).map (fun i => st.roots.getD i 0 - a)
        ++ st.denom.drop st.f.length := by
    have h1 : (divideLoop2 a st).denom
        = (List.range st.f.length).foldl
            (fun dl i => dl.set i (st.roots.getD i 0 - a)) st.denom :=
      divideLoop2_denom_fold a _ st
    rw [h1, foldl_set_range_const (fun i => st.roots.getD i 0 - a) _ _ h]
  calc divideLoop2 a st
      = ⟨(divideLoop2 a st).f, (divideLoop2 a st).roots,
          (divideLoop2 a st).numer, (divideLoop2 a st).denom⟩ := rfl
    _ = _ := by rw [hf, hr, hn, hd]

lemma divideLoop3_spec (st : DivideMem F)
    (h : st.f.length ≤ st.denom.length) :
    divideLoop3 st = ⟨st.f, st.roots, st.numer,
      (List.range st.f.length).map
          (fun i => st.denom.getD i 0 * st.numer.getD i 0)
        ++ st.denom.drop st.f.length⟩ := by
  have hf : (divideLoop3 st).f = st.f :=
    (foldl_denom_preserve _ _ st).1
  have hr : (divideLoop3 st).roots = st.roots :=
    (foldl_denom_preserve _ _ st).2.1
  have hn : (divideLoop3 st).numer = st.numer :=
    (foldl_denom_preserve _ _ st).2.2
  have hd : (divideLoop3 st).denom
      = (List.range st.f.length).map
          (fun i => st.denom.getD i 0 * st.numer.getD i 0)
        ++ st.denom.drop st.f.length := by
    have h1 : (divideLoop3 st).denom
        = (List.range st.f.length).foldl
            (fun dl i => dl.set i (dl.getD i 0 * st.numer.getD i 0)) st.denom :=
      divideLoop3_denom_fold _ st
    rw [h1, foldl_set_range_self (fun i cur => cur * st.numer.getD i 0) 0 _ _ h]
  calc divideLoop3 st
      = ⟨(divideLoop3 st).f, (divideLoop3 st).roots,
          (divideLoop3 st).numer, (divideLoop3 st).denom⟩ := rfl
    _ = _ := by rw [hf, hr, hn, hd]

/-- C10: in the memory-explicit rendering of DividePolyByXminusA, where
every Go slice write is an update of an explicit buffer, the input
polynomial buffer f and the domain's Roots buffer hold their original
values when the function returns (every write targets the freshly
allocated numer and denom buffers), and the returned result is the same
value the pure rendering computes. -/
theorem DividePolyByXminusA_frame (d : Domain F) (f : Polynomial F)
    (fa a : F) :
    (DividePolyByXminusAMem d f fa a).2.1 = f ∧
    (DividePolyByXminusAMem d f fa a).2.2 = d.Roots ∧
    (DividePolyByXminusAMem d f fa a).1 = DividePolyByXminusA d f fa a := by
  by_cases h1 : d.Cardinality ≠ f.length
  · simp [DividePolyByXminusAMem, DividePolyByXminusA, if_pos h1]
  · by_cases h2 : d.isInDomain a
    · simp [DividePolyByXminusAMem, DividePolyByXminusA, if_neg h1, if_pos h2]
    · have e1 : divideLoop1 fa
          ⟨f, d.Roots, List.replicate f.length 0, List.replicate f.length 0⟩
          = ⟨f, d.Roots,
              (List.range f.length).map (fun i => f.getD i 0 - fa),
              List.replicate f.length 0⟩ := by
        rw [divideLoop1_spec fa _ (by simp)]
        simp
      have e2 : divideLoop2 a
          ⟨f, d.Roots,
            (List.range f.length).map (fun i => f.getD i 0 - fa),
            List.replicate f.length 0⟩
          = ⟨f, d.Roots,
              (List.range f.length).map (fun i => f.getD i 0 - fa),
              (List.range f.length).map (fun i => d.Roots.getD i 0 - a)⟩ := by
        rw [divideLoop2_spec a _ (by simp)]
        simp
      have e4 : divideLoop3
          ⟨f, d.Roots,
            (List.range f.length).map (fun i => f.getD i 0 - fa),
            batchInvert ((List.range f.length).map
              (fun i => d.Roots.getD i 0 - a))⟩
          = ⟨f, d.Roots,
              (List.range f.length).map (fun i => f.getD i 0 - fa),
              (List.range f.length).map (fun i =>
                (batchInvert ((List.range f.length).map
                  (fun j => d.Roots.getD j 0 - a))).getD i 0 *
                ((List.range f.length).map
                  (fun j => f.getD j 0 - fa)).getD i 0)⟩ := by
        rw [divideLoop3_spec _ (by simp [batchInvert_length])]
        simp [batchInvert_length, List.drop_eq_nil_of_le]
      simp only [DividePolyByXminusAMem, DividePolyByXminusA, if_neg h1,
        if_neg h2, e1, e2, e4]
      exact ⟨trivial, trivial, trivial⟩

end kzg
